import Mathlib

/-!
Verification of the Analysis Response Interpretation & Health-Impact
Aggregation subsystem of the B4UE repository.

The subject code is `handleAnalysisResponse` and `determineOverallImpact` in
`src/app/components/FoodScan.tsx` (lines 235-322).  The code is TypeScript
running on untyped JSON data (`JSON.parse` performs no shape validation), so
the embedding models runtime JavaScript values as a `Json` inductive and
models property access, truthiness, `Array.prototype.some`, `JSON.parse`,
and the one regular expression used by the code, faithfully to ECMAScript
semantics on the value shapes these functions can actually encounter.
Exceptions (TypeError / SyntaxError / the explicit `throw`) are modelled with
`Except Unit`; the site of the enclosing `try`/`catch` determines where an
`error` value is intercepted, exactly mirroring the source's nesting.
-/

/-- Runtime JavaScript value as produced by `JSON.parse`.
Numbers are kept as an unreduced decimal mantissa/exponent pair
(value `m * 10 ^ e`): `JSON.parse` yields IEEE doubles, but no code path in
the subsystem compares numbers or does arithmetic on them, so the exact
numeric representation is observationally irrelevant. -/
inductive Json where
  | null : Json
  | bool : Bool → Json
  | num : Int → Int → Json
  | str : String → Json
  | arr : List Json → Json
  | obj : List (String × Json) → Json

/-- Property lookup on the member list of a parsed JSON object.
`JSON.parse` assigns members in textual order, so a duplicated key ends up
with its last value; we therefore return the last binding. -/
def lookupLast (fs : List (String × Json)) (k : String) : Option Json :=
  fs.reverse.lookup k

/-- JavaScript property read `v[k]` restricted to the cases the subsystem
exercises: an object yields its member (or `undefined` = `none`); every other
value yields `undefined` for the properties the code reads
(`raw_analysis`, `ingredients`, `classification`, `warnings` are not
properties of primitives or arrays).  The `null` case — where JavaScript
throws — is handled explicitly at each access site. -/
def getField : Json → String → Option Json
  | .obj fs, k => lookupLast fs k
  | _, _ => none

/-- ECMAScript ToBoolean on a possibly-`undefined` value (`none` =
`undefined`).  `NaN` is not representable here; no code path can produce it. -/
def truthy : Option Json → Bool
  | none => false
  | some .null => false
  | some (.bool b) => b
  | some (.num m _) => m != 0
  | some (.str s) => s ≠ ""
  | some (.arr _) => true
  | some (.obj _) => true

/-! ## Response Normalizer (FoodScan.tsx lines 239-242) -/

/-- Characters removed by the third `replace`:
the regex class `[\u0000-\u001F\u007F-\u009F]`.  (These ranges lie in the
BMP, so UTF-16 code units and Unicode scalar values coincide.) -/
def ctlChar (c : Char) : Bool :=
  c.toNat ≤ 0x1F || (0x7F ≤ c.toNat && c.toNat ≤ 0x9F)

/-- The call `.replace` with the global newline regex: remove all newline
characters. -/
def stripNl (s : String) : String :=
  String.mk (s.data.filter (fun c => c ≠ '\n'))

/-- The call `.replace` with the global carriage-return regex: remove all
carriage-return characters. -/
def stripCr (s : String) : String :=
  String.mk (s.data.filter (fun c => c ≠ '\r'))

/-- The third `.replace`: remove all control characters in the two ranges
U+0000-U+001F and U+007F-U+009F. -/
def stripCtl (s : String) : String :=
  String.mk (s.data.filter (fun c => ¬ ctlChar c))

/-- The normalizer: the three `replace` calls of lines 239-242,
applied in source order. -/
def cleanJson (s : String) : String :=
  stripCtl (stripCr (stripNl s))

/-! ## JSON.parse

An executable model of ECMAScript `JSON.parse` (ECMA-404 grammar): the full
value grammar with strings (all escapes, including `\uXXXX` with surrogate
pairs), numbers, arrays, objects, and insignificant whitespace, requiring the
whole input to be consumed.  A lone surrogate escape — which JavaScript keeps
as an unpaired UTF-16 unit, not representable in a Lean `String` — is mapped
to U+FFFD; no input considered in this development contains one. -/

/-- JSON insignificant whitespace (space, tab, line feed, carriage return). -/
def jsonWs (c : Char) : Bool :=
  c = ' ' || c = '\t' || c = '\n' || c = '\r'

def skipWs (cs : List Char) : List Char :=
  cs.dropWhile jsonWs

def isDigit (c : Char) : Bool := '0' ≤ c && c ≤ '9'

def hexVal (c : Char) : Option Nat :=
  if '0' ≤ c ∧ c ≤ '9' then some (c.toNat - '0'.toNat)
  else if 'a' ≤ c ∧ c ≤ 'f' then some (c.toNat - 'a'.toNat + 10)
  else if 'A' ≤ c ∧ c ≤ 'F' then some (c.toNat - 'A'.toNat + 10)
  else none

/-- Body of a JSON string after the opening quote: returns the decoded
characters and the remaining input after the closing quote.  Raw control
characters below U+0020 are a syntax error, as in `JSON.parse`.  The `Nat`
fuel (always ample at the call sites) only makes the recursion structural so
that concrete inputs evaluate definitionally. -/
def parseStrBody : Nat → List Char → Option (List Char × List Char)
  | 0, _ => none
  | _ + 1, [] => none
  | _ + 1, '"' :: r => some ([], r)
  | fuel + 1, '\\' :: 'u' :: h1 :: h2 :: h3 :: h4 :: r =>
    match hexVal h1, hexVal h2, hexVal h3, hexVal h4 with
    | some a, some b, some c, some d =>
      let n := ((a * 16 + b) * 16 + c) * 16 + d
      if 0xD800 ≤ n ∧ n ≤ 0xDBFF then
        match r with
        | '\\' :: 'u' :: g1 :: g2 :: g3 :: g4 :: r2 =>
          match hexVal g1, hexVal g2, hexVal g3, hexVal g4 with
          | some a', some b', some c', some d' =>
            let n' := ((a' * 16 + b') * 16 + c') * 16 + d'
            if 0xDC00 ≤ n' ∧ n' ≤ 0xDFFF then
              (parseStrBody fuel r2).map fun (cs, rest) =>
                (Char.ofNat (0x10000 + (n - 0xD800) * 0x400 + (n' - 0xDC00)) :: cs, rest)
            else
              (parseStrBody fuel ('\\' :: 'u' :: g1 :: g2 :: g3 :: g4 :: r2)).map
                fun (cs, rest) => ('�' :: cs, rest)
          | _, _, _, _ =>
            (parseStrBody fuel ('\\' :: 'u' :: g1 :: g2 :: g3 :: g4 :: r2)).map
              fun (cs, rest) => ('�' :: cs, rest)
        | r' => (parseStrBody fuel r').map fun (cs, rest) => ('�' :: cs, rest)
      else if 0xDC00 ≤ n ∧ n ≤ 0xDFFF then
        (parseStrBody fuel r).map fun (cs, rest) => ('�' :: cs, rest)
      else
        (parseStrBody fuel r).map fun (cs, rest) => (Char.ofNat n :: cs, rest)
    | _, _, _, _ => none
  | fuel + 1, '\\' :: e :: r =>
    let esc : Option Char :=
      if e = '"' then some '"'
      else if e = '\\' then some '\\'
      else if e = '/' then some '/'
      else if e = 'b' then some '\x08'
      else if e = 'f' then some '\x0c'
      else if e = 'n' then some '\n'
      else if e = 'r' then some '\r'
      else if e = 't' then some '\t'
      else none
    match esc with
    | some c => (parseStrBody fuel r).map fun (cs, rest) => (c :: cs, rest)
    | none => none
  | fuel + 1, c :: r =>
    if c.toNat < 0x20 then none
    else (parseStrBody fuel r).map fun (cs, rest) => (c :: cs, rest)

def digitsToNat (ds : List Char) : Nat :=
  ds.foldl (fun n c => 10 * n + (c.toNat - '0'.toNat)) 0

/-- JSON number: `-? (0 | [1-9][0-9]*) frac? exp?`, returned as
mantissa/power-of-ten pair. -/
def parseNum (cs : List Char) : Option (Json × List Char) :=
  let (neg, cs1) : Bool × List Char :=
    match cs with
    | '-' :: r => (true, r)
    | _ => (false, cs)
  let intPart : Option (List Char × List Char) :=
    match cs1 with
    | '0' :: r => some (['0'], r)
    | c :: r =>
      if '1' ≤ c ∧ c ≤ '9' then some (c :: r.takeWhile isDigit, r.dropWhile isDigit)
      else none
    | [] => none
  match intPart with
  | none => none
  | some (ids, cs2) =>
    let fracPart : Option (List Char × List Char) :=
      match cs2 with
      | '.' :: r =>
        let fs := r.takeWhile isDigit
        if fs = [] then none else some (fs, r.dropWhile isDigit)
      | _ => some ([], cs2)
    match fracPart with
    | none => none
    | some (fds, cs3) =>
      let expPart : Option (Int × List Char) :=
        match cs3 with
        | 'e' :: r | 'E' :: r =>
          let (esign, r1) : Bool × List Char :=
            match r with
            | '+' :: r' => (false, r')
            | '-' :: r' => (true, r')
            | _ => (false, r)
          let es := r1.takeWhile isDigit
          if es = [] then none
          else some ((if esign then -(digitsToNat es : Int) else (digitsToNat es : Int)),
                     r1.dropWhile isDigit)
        | _ => some (0, cs3)
      match expPart with
      | none => none
      | some (e, cs4) =>
        let mant : Int := digitsToNat (ids ++ fds)
        some (.num (if neg then -mant else mant) (e - fds.length), cs4)

mutual

/-- One JSON value (fuelled recursive descent; `parseJson` supplies ample
fuel, and concrete evaluations below witness its sufficiency). -/
def parseVal : Nat → List Char → Option (Json × List Char)
  | 0, _ => none
  | fuel + 1, cs =>
    match skipWs cs with
    | 'n' :: 'u' :: 'l' :: 'l' :: r => some (.null, r)
    | 't' :: 'r' :: 'u' :: 'e' :: r => some (.bool true, r)
    | 'f' :: 'a' :: 'l' :: 's' :: 'e' :: r => some (.bool false, r)
    | '"' :: r => (parseStrBody fuel r).map fun (cs', r2) => (.str (String.mk cs'), r2)
    | '[' :: r =>
      match skipWs r with
      | ']' :: r2 => some (.arr [], r2)
      | r2 => (parseItems fuel r2).map fun (xs, r3) => (.arr xs, r3)
    | '\x7b' :: r =>
      match skipWs r with
      | '\x7d' :: r2 => some (.obj [], r2)
      | r2 => (parseMembers fuel r2).map fun (ms, r3) => (.obj ms, r3)
    | cs' => parseNum cs'

/-- Comma-separated JSON values up to the closing `]`. -/
def parseItems : Nat → List Char → Option (List Json × List Char)
  | 0, _ => none
  | fuel + 1, cs =>
    match parseVal fuel cs with
    | none => none
    | some (v, r) =>
      match skipWs r with
      | ',' :: r2 =>
        match parseItems fuel r2 with
        | none => none
        | some (xs, r3) => some (v :: xs, r3)
      | ']' :: r2 => some ([v], r2)
      | _ => none

/-- Comma-separated JSON members up to the closing brace. -/
def parseMembers : Nat → List Char → Option (List (String × Json) × List Char)
  | 0, _ => none
  | fuel + 1, cs =>
    match skipWs cs with
    | '"' :: r =>
      match parseStrBody fuel r with
      | none => none
      | some (k, r2) =>
        match skipWs r2 with
        | ':' :: r3 =>
          match parseVal fuel r3 with
          | none => none
          | some (v, r4) =>
            match skipWs r4 with
            | ',' :: r5 =>
              match parseMembers fuel r5 with
              | none => none
              | some (ms, r6) => some ((String.mk k, v) :: ms, r6)
            | '\x7d' :: r5 => some ([(String.mk k, v)], r5)
            | _ => none
        | _ => none
    | _ => none

end

/-- Model of `JSON.parse`: parse one value and require only whitespace to
remain; `none` models a thrown `SyntaxError`. -/
def parseJson (s : String) : Option Json :=
  match parseVal (2 * s.length + 2) s.data with
  | some (v, r) => if skipWs r = [] then some v else none
  | none => none

/-! ## Tier-2 partial extraction pattern (FoodScan.tsx line 261)

The source matches `cleanedJson` against the regular expression
`/"ingredients":\s*\[([\s\S]*?)\]/` and, on a match, wraps capture group 1 in
`[` … `]` and parses it.  ECMAScript regex semantics: the engine tries start
positions left to right; at a position the literal `"ingredients":` must
match, then `\s*` (greedy, but since `[` is not in `\s` backtracking changes
nothing: the maximal whitespace run must be followed by `[`), then the lazy
`([\s\S]*?)\]` captures up to the FIRST `]` after the `[` — and the overall
attempt fails at this position when no `]` follows at all. -/

/-- Match a literal character sequence at the head of the input, returning
the rest. -/
def dropLit : List Char → List Char → Option (List Char)
  | [], cs => some cs
  | p :: ps, c :: cs => if c = p then dropLit ps cs else none
  | _ :: _, [] => none

/-- ECMAScript `\s`: whitespace and line terminators
(space, tab, LF, VT, FF, CR, NBSP, BOM, the Unicode `Zs` characters,
and U+2028/U+2029). -/
def jsWsChar (c : Char) : Bool :=
  c = ' ' || c = '\t' || c = '\n' || c = '\x0b' || c = '\x0c' || c = '\r' ||
  c = '\u00A0' || c = '\uFEFF' || c = '\u1680' ||
  (0x2000 ≤ c.toNat && c.toNat ≤ 0x200A) ||
  c = '\u2028' || c = '\u2029' || c = '\u202F' || c = '\u205F' || c = '\u3000'

/-- Characters strictly before the first `]`, or `none` when there is no
`]` — the lazy `([\s\S]*?)\]` part of the pattern. -/
def takeUntilRB : List Char → Option (List Char)
  | [] => none
  | c :: cs => if c = ']' then some [] else (takeUntilRB cs).map (c :: ·)

/-- Attempt the whole pattern at the current position. -/
def matchIngredientsAt (cs : List Char) : Option (List Char) :=
  match dropLit "\"ingredients\":".data cs with
  | none => none
  | some rest =>
    match rest.dropWhile jsWsChar with
    | d :: rest2 => if d = '[' then takeUntilRB rest2 else none
    | [] => none

/-- The `cleanedJson.match` call of line 261: capture group 1 of the leftmost
match of the ingredients-array regex, `none` when it does not match. -/
def findIngredientsArr : List Char → Option (List Char)
  | [] => none
  | c :: cs =>
    match matchIngredientsAt (c :: cs) with
    | some cap => some cap
    | none => findIngredientsArr cs

/-! ## The safety predicate inside `.some(...)` (lines 250-251, 269-270, 288-289)

All three assembly sites evaluate, for each element `i` of the ingredient
array, `i.classification === "very_bad" || i.warnings.length > 0`
(single quotes of the source written double here).
The array elements are raw parsed JSON, so each access follows JavaScript
semantics: reading a property of `null` throws; `undefined.length` and
`null.length` throw; `.length` of a non-array non-string is `undefined`,
and `undefined > 0` is `false`. -/

/-- The test `i.classification === "very_bad"` (strict equality written with
double quotes here).  Strict equality against a string is
`false` for every non-string (including `undefined`); reading the property
of `null` throws. -/
def clsIsVeryBad : Json → Except Unit Bool
  | .null => .error ()
  | .obj fs =>
    .ok (match lookupLast fs "classification" with
         | some (.str s) => s = "very_bad"
         | _ => false)
  | _ => .ok false

/-- The test `i.warnings.length > 0`.  Throws when `i` is not an object (its
`warnings` is `undefined`, and `undefined.length` throws) and when the
`warnings` member is absent or `null`; an object-valued `warnings` reads its
own `length` member (numeric-string or boolean `length` values, which
JavaScript would coerce numerically, do not occur in any payload considered
here and are rendered as the `false` of a failed comparison). -/
def warnLenPos : Json → Except Unit Bool
  | .obj fs =>
    match lookupLast fs "warnings" with
    | none => .error ()
    | some .null => .error ()
    | some (.arr xs) => .ok (xs.length > 0)
    | some (.str s) => .ok (s.length > 0)
    | some (.obj gs) =>
      match lookupLast gs "length" with
      | some (.num m _) => .ok (0 < m)
      | _ => .ok false
    | some (.bool _) => .ok false
    | some (.num _ _) => .ok false
  | _ => .error ()

/-- The per-element predicate, with `||` short-circuiting: when the
classification test is `true`, `i.warnings` is never read. -/
def ingSomeCheck (i : Json) : Except Unit Bool := do
  let vb ← clsIsVeryBad i
  if vb then pure true else warnLenPos i

/-- Model of `Array.prototype.some`: left-to-right, stopping at the first `true`;
an exception in the callback propagates. -/
def someThrow (f : Json → Except Unit Bool) : List Json → Except Unit Bool
  | [] => .ok false
  | x :: xs =>
    match f x with
    | .error e => .error e
    | .ok true => .ok true
    | .ok false => someThrow f xs

/-! ## Impact Aggregator: `determineOverallImpact` (lines 305-322) -/

/-- Rendering of a `Json` number as used in property keys.  JavaScript
formats doubles differently, but every numeric rendering consists only of
digits, sign, `.`, `e` — and the tally built below is only ever read at the
four classification keywords, which no numeric rendering can equal, so the
exact format is observationally irrelevant. -/
def numToStr (m e : Int) : String :=
  toString m ++ "e" ++ toString e

mutual

/-- ECMAScript `ToString` on a parsed-JSON value (used for the computed
property key `acc[ingredient.classification]`). -/
def jsToStr : Json → String
  | .null => "null"
  | .bool true => "true"
  | .bool false => "false"
  | .num m e => numToStr m e
  | .str s => s
  | .arr xs => jsToStrList xs
  | .obj _ => "[object Object]"

/-- Model of `Array.prototype.toString`, which joins the rendered elements
with commas, rendering `null` elements as the empty string. -/
def jsToStrList : List Json → String
  | [] => ""
  | [.null] => ""
  | [x] => jsToStr x
  | .null :: xs => "," ++ jsToStrList xs
  | x :: xs => jsToStr x ++ "," ++ jsToStrList xs

end

/-- The property key `ingredient.classification` is turned into inside
`acc[...]`: reading the property of `null` throws; a primitive or array
`ingredient` has no such property, and the key of `undefined` is the string
`"undefined"`. -/
def classKey : Json → Except Unit String
  | .null => .error ()
  | .obj fs =>
    .ok (match lookupLast fs "classification" with
         | none => "undefined"
         | some v => jsToStr v)
  | _ => .ok "undefined"

/-- The sequence of property keys read by the `reduce` of lines 306-309,
visiting elements left to right; the first `null` element throws. -/
def classKeys : List Json → Except Unit (List String)
  | [] => .ok []
  | x :: xs => do
    let k ← classKey x
    let ks ← classKeys xs
    pure (k :: ks)

/-- One step of the tally: `acc[key] = (acc[key] || 0) + 1`. -/
def bumpKey : List (String × Nat) → String → List (String × Nat)
  | [], k => [(k, 1)]
  | (k', n) :: rest, k =>
    if k' = k then (k', n + 1) :: rest else (k', n) :: bumpKey rest k

/-- The `stats` accumulator: classification key → occurrence count. -/
def tally (keys : List String) : List (String × Nat) :=
  keys.foldl bumpKey []

/-- Read of `stats.k`, defaulting a missing tally entry to 0. -/
def statsGet (st : List (String × Nat)) (k : String) : Nat :=
  (st.lookup k).getD 0

/-- Lines 311-321: counts and thresholds.  The source compares against the
double products `totalIngredients * 0.3` and `totalIngredients * 0.5`; we
use exact rationals.  This is faithful: `0.5` is exact in binary, and for
every integer `t` in double range the product `t * 0.3` rounds to a double
within `2^-54` relative distance of the rational `3t/10` — strictly closer
than the nearest other double and than any integer other than `3t/10`
itself — so the comparisons `badCount > t*0.3` and `goodCount > t*0.5`
against integer counts coincide with the rational comparisons. -/
def impactMessage (keys : List String) (total : Nat) : String :=
  let st := tally keys
  let badCount := statsGet st "bad" + statsGet st "very_bad"
  let goodCount := statsGet st "good" + statsGet st "very_good"
  if (badCount : ℚ) > (total : ℚ) * (3 / 10) then
    "High number of potentially harmful ingredients detected. Consider alternatives."
  else if (goodCount : ℚ) > (total : ℚ) * (1 / 2) then
    "Generally healthy composition with beneficial ingredients."
  else
    "Moderate nutritional value. Contains a mix of beneficial and less desirable ingredients."

/-- Model of `determineOverallImpact` (lines 305-322): total on every array of
well-behaved elements; throws exactly when the `reduce` hits a `null`
element. -/
def determineOverallImpact (xs : List Json) : Except Unit String :=
  (classKeys xs).map fun ks => impactMessage ks xs.length

/-! ## Health Analysis Assembler: `handleAnalysisResponse` (lines 235-303) -/

/-- The value passed to `setHealthAnalysis` (the `HealthAnalysis` shape):
the surfaced ingredient array plus the derived summary. -/
structure HAResult where
  ingredients : List Json
  safe_to_consume : Bool
  overall_impact : String

/-- The summary-building object literal shared verbatim by all three
assembly sites (lines 247-254, 266-273, 285-293), evaluated in source field
order: first `safe_to_consume: !ingredients.some(...)`, then
`overall_impact: determineOverallImpact(ingredients)`; an exception in
either propagates to the site's enclosing `try`. -/
def mkAnalysis (ing : List Json) : Except Unit HAResult := do
  let someBad ← someThrow ingSomeCheck ing
  let impact ← determineOverallImpact ing
  pure ⟨ing, !someBad, impact⟩

/-- Tier 1 (lines 244-256): full `JSON.parse` of the cleaned string, then the
summary literal.  The literal's `ingredients: parsedAnalysis.ingredients || []`
default is evaluated first, but the very next field accesses
`parsedAnalysis.ingredients.some` WITHOUT the guard, so the construction
completes exactly when `parsedAnalysis` has an array-valued `ingredients`
member (and then `|| []` keeps that array, an empty array being truthy);
in every other case — parse failure, parsed `null` (whose property read
throws), no `ingredients` member, or a non-array one — a SyntaxError or
TypeError is thrown, modelled by `.error`, and the `|| []` default never
reaches the output. -/
def tier1 (cleaned : String) : Except Unit HAResult :=
  match parseJson cleaned with
  | none => .error ()
  | some .null => .error ()
  | some v =>
    match getField v "ingredients" with
    | some (.arr xs) => mkAnalysis xs
    | _ => .error ()

/-- Tier 2 (lines 260-279): regex extraction over the cleaned string, then
`JSON.parse` of the rebracketed capture, then the summary literal.  A string
starting with `[` can only parse to an array, so the defensive final case is
unreachable. -/
def tier2 (cleaned : String) : Except Unit HAResult :=
  match findIngredientsArr cleaned.data with
  | none => .error ()
  | some cap =>
    match parseJson ("[" ++ String.mk cap ++ "]") with
    | some (.arr xs) => mkAnalysis xs
    | _ => .error ()

/-- Lines 284-295: the direct structured path, guarded by the truthiness of
`data.ingredients`.  A truthy non-array value makes the summary's `.some`
call throw, which escapes to the OUTER catch — as does a throw inside the
summary literal itself — yielding the error result `none`. -/
def directPath (data : Json) : Option HAResult :=
  let ingOpt := getField data "ingredients"
  if truthy ingOpt then
    match ingOpt with
    | some (.arr xs) => (mkAnalysis xs).toOption
    | _ => none
  else
    none

/-- Model of `handleAnalysisResponse` (lines 235-303).  `none` models the outer
`catch`: the user-facing error is set and no `HealthAnalysis` is produced —
reached by the explicit `throw new Error("Unable to parse ingredients data")`
as well as by any exception escaping the inner handlers.  A `null` payload
throws at the very first property read.  Tier-1 failure falls to tier 2
(line 257's catch), and failure of both falls through to the direct path,
mirroring the source's catch nesting. -/
def handleAnalysisResponse (data : Json) : Option HAResult :=
  match data with
  | .null => none
  | _ =>
    let rawOpt := getField data "raw_analysis"
    if truthy rawOpt then
      match rawOpt with
      | some (.str raw) =>
        let cleaned := cleanJson raw
        match tier1 cleaned with
        | .ok ha => some ha
        | .error _ =>
          match tier2 cleaned with
          | .ok ha => some ha
          | .error _ => directPath data
      | _ => none
    else
      directPath data

/-! ## The declared (typed) data model (FoodScan.tsx lines 11-31)

TypeScript types are erased at runtime; these structures describe the values
the interfaces PROMISE, and `AnalyzedIngredient.toJson` is the runtime value
of such a well-typed ingredient.  Claims quantifying over "lists of
AnalyzedIngredient" are stated over these. -/

inductive Severity where
  | positive | negative | neutral
deriving DecidableEq

structure Impact where
  metric : String
  effect : String
  severity : Severity
deriving DecidableEq

inductive Classification where
  | very_good | good | neutral | bad | very_bad
deriving DecidableEq

def Classification.toStr : Classification → String
  | .very_good => "very_good"
  | .good => "good"
  | .neutral => "neutral"
  | .bad => "bad"
  | .very_bad => "very_bad"

structure AnalyzedIngredient where
  name : String
  classification : Classification
  impacts : List Impact
  warnings : List String
  recommendations : List String
deriving DecidableEq

def Severity.toStr : Severity → String
  | .positive => "positive"
  | .negative => "negative"
  | .neutral => "neutral"

def Impact.toJson (im : Impact) : Json :=
  .obj [("metric", .str im.metric), ("effect", .str im.effect),
        ("severity", .str im.severity.toStr)]

def AnalyzedIngredient.toJson (i : AnalyzedIngredient) : Json :=
  .obj [("name", .str i.name),
        ("classification", .str i.classification.toStr),
        ("impacts", .arr (i.impacts.map Impact.toJson)),
        ("warnings", .arr (i.warnings.map Json.str)),
        ("recommendations", .arr (i.recommendations.map Json.str))]

/-- The spec's invariant on a surfaced ingredient (§3 of the spec, claim C2),
stated on the runtime value: a present string `name`, a `classification`
drawn from the closed five-value enumeration, and present (array-valued, so
never null/absent) `impacts`, `warnings`, `recommendations`. -/
def isStrField (fs : List (String × Json)) (k : String) : Bool :=
  match lookupLast fs k with
  | some (.str _) => true
  | _ => false

def isArrField (fs : List (String × Json)) (k : String) : Bool :=
  match lookupLast fs k with
  | some (.arr _) => true
  | _ => false

def isEnumCls (fs : List (String × Json)) : Bool :=
  match lookupLast fs "classification" with
  | some (.str s) =>
    s = "very_good" || s = "good" || s = "neutral" || s = "bad" || s = "very_bad"
  | _ => false

def wfIngredientB (j : Json) : Bool :=
  match j with
  | .obj fs =>
    isStrField fs "name" && isEnumCls fs && isArrField fs "impacts" &&
      isArrField fs "warnings" && isArrField fs "recommendations"
  | _ => false

/-! ## Helper lemmas -/

theorem ingSomeCheck_toJson (i : AnalyzedIngredient) :
    ingSomeCheck i.toJson
      = .ok (decide (i.classification = .very_bad) || decide (i.warnings ≠ [])) := by
  cases hc : i.classification <;>
    simp [ingSomeCheck, AnalyzedIngredient.toJson, clsIsVeryBad, warnLenPos,
      lookupLast, List.lookup, Classification.toStr, hc, bind, Except.bind,
      List.length_pos, pure, Except.pure]

theorem someThrow_toJson (xs : List AnalyzedIngredient) :
    someThrow ingSomeCheck (xs.map AnalyzedIngredient.toJson)
      = .ok (xs.any fun i => decide (i.classification = .very_bad) || decide (i.warnings ≠ [])) := by
  induction xs with
  | nil => rfl
  | cons x xs ih =>
    simp only [List.map_cons, someThrow, ingSomeCheck_toJson, List.any_cons]
    by_cases h1 : x.classification = .very_bad <;> by_cases h2 : x.warnings = [] <;>
      simp [h1, h2, ih]

theorem classKey_toJson (i : AnalyzedIngredient) :
    classKey i.toJson = .ok i.classification.toStr := by
  simp [classKey, AnalyzedIngredient.toJson, lookupLast, List.lookup, jsToStr]

theorem classKeys_toJson (xs : List AnalyzedIngredient) :
    classKeys (xs.map AnalyzedIngredient.toJson)
      = .ok (xs.map fun i => i.classification.toStr) := by
  induction xs with
  | nil => rfl
  | cons x xs ih =>
    simp [classKeys, classKey_toJson, ih, bind, Except.bind, pure, Except.pure]

theorem statsGet_bumpKey (st : List (String × Nat)) (k k' : String) :
    statsGet (bumpKey st k) k' = statsGet st k' + if k = k' then 1 else 0 := by
  induction st with
  | nil =>
    by_cases h : k = k'
    · subst h; simp [bumpKey, statsGet, List.lookup]
    · simp [bumpKey, statsGet, List.lookup,
        show (k' == k) = false from beq_false_of_ne (Ne.symm h), h]
  | cons p st ih =>
    obtain ⟨k0, n0⟩ := p
    by_cases h0 : k0 = k
    · subst h0
      by_cases h : k0 = k'
      · subst h; simp [bumpKey, statsGet, List.lookup]
      · simp [bumpKey, statsGet, List.lookup,
          show (k' == k0) = false from beq_false_of_ne (Ne.symm h), h]
    · by_cases h : k' = k0
      · subst h
        have hk : k ≠ k' := fun hh => h0 hh.symm
        simp [bumpKey, statsGet, List.lookup, h0, hk]
      · simpa [bumpKey, statsGet, List.lookup, h0,
          show (k' == k0) = false from beq_false_of_ne h] using ih

theorem statsGet_foldl (keys : List String) (acc : List (String × Nat)) (k : String) :
    statsGet (keys.foldl bumpKey acc) k = statsGet acc k + keys.count k := by
  induction keys generalizing acc with
  | nil => simp
  | cons key keys ih =>
    simp only [List.foldl_cons, ih, statsGet_bumpKey, List.count_cons]
    by_cases h : key = k
    · subst h; simp; omega
    · simp [h, show (k == key) = false from beq_false_of_ne (Ne.symm h)]

theorem statsGet_tally (keys : List String) (k : String) :
    statsGet (tally keys) k = keys.count k := by
  simpa [tally, statsGet, List.lookup] using statsGet_foldl keys [] k

theorem gt_three_tenths_iff (b t : ℕ) :
    ((b : ℚ) > (t : ℚ) * (3 / 10)) ↔ 3 * t < 10 * b := by
  rw [gt_iff_lt, show (t : ℚ) * (3 / 10) = ((3 * t : ℕ) : ℚ) / 10 by push_cast; ring,
    div_lt_iff₀ (by norm_num : (0 : ℚ) < 10),
    show ((b : ℚ)) * 10 = ((10 * b : ℕ) : ℚ) by push_cast; ring]
  exact_mod_cast Iff.rfl

theorem gt_half_iff (g t : ℕ) :
    ((g : ℚ) > (t : ℚ) * (1 / 2)) ↔ t < 2 * g := by
  rw [gt_iff_lt, show (t : ℚ) * (1 / 2) = ((t : ℕ) : ℚ) / 2 by ring,
    div_lt_iff₀ (by norm_num : (0 : ℚ) < 2),
    show ((g : ℚ)) * 2 = ((2 * g : ℕ) : ℚ) by push_cast; ring]
  exact_mod_cast Iff.rfl

theorem count_toStr (xs : List AnalyzedIngredient) (c : Classification) :
    ((xs.map fun i => i.classification.toStr).count c.toStr)
      = (xs.map AnalyzedIngredient.classification).count c := by
  induction xs with
  | nil => rfl
  | cons x xs ih =>
    simp only [List.map_cons, List.count_cons, ih]
    have : (x.classification.toStr == c.toStr) = (x.classification == c) := by
      cases c <;> cases hx : x.classification <;> decide
    rw [this]

/-- Evaluation form of `impactMessage`: the two exact-rational threshold
comparisons restated as integer comparisons (used both to settle claim C5 and
to evaluate the pipeline at concrete inputs, since `ℚ` arithmetic does not
reduce definitionally). -/
theorem impactMessage_eq_int (keys : List String) (total : Nat) :
    impactMessage keys total
      = (if 3 * total < 10 * (keys.count "bad" + keys.count "very_bad") then
           "High number of potentially harmful ingredients detected. Consider alternatives."
         else if total < 2 * (keys.count "good" + keys.count "very_good") then
           "Generally healthy composition with beneficial ingredients."
         else
           "Moderate nutritional value. Contains a mix of beneficial and less desirable ingredients.") := by
  simp only [impactMessage, statsGet_tally]
  rw [if_congr (gt_three_tenths_iff _ _) rfl rfl, if_congr (gt_half_iff _ _) rfl rfl]

/-! ## Claim theorems -/

/-- Claim C1 (confirmed): for every list of well-typed `AnalyzedIngredient`
reaching the summary construction — the object literal shared by the tier-1,
tier-2 and direct assembly paths, embodied by `mkAnalysis` — the assembled
`safe_to_consume` equals NOT (some ingredient is classified `very_bad` OR
some ingredient has a non-empty `warnings` sequence); one veto anywhere makes
it `false` regardless of the other ingredients. -/
theorem mkAnalysis_safe_iff_no_veto (xs : List AnalyzedIngredient) :
    (mkAnalysis (xs.map AnalyzedIngredient.toJson)).map HAResult.safe_to_consume
      = .ok (decide (¬ ∃ i ∈ xs,
          i.classification = Classification.very_bad ∨ i.warnings ≠ [])) := by
  simp only [mkAnalysis, determineOverallImpact, someThrow_toJson, classKeys_toJson,
    bind, Except.bind, Except.map, pure, Except.pure]
  congr 1
  rw [decide_not]
  congr 1
  by_cases hP : ∃ i ∈ xs, i.classification = Classification.very_bad ∨ i.warnings ≠ []
  · rw [decide_eq_true hP]
    obtain ⟨i, hi, hvi⟩ := hP
    rw [List.any_eq_true]
    exact ⟨i, hi, by rcases hvi with h | h <;> simp [h]⟩
  · rw [decide_eq_false hP]
    rw [List.any_eq_false]
    intro i hi
    simp only [Bool.or_eq_true, decide_eq_true_eq, not_or]
    exact not_or.mp fun hc => hP ⟨i, hi, hc⟩

/-- Spec-side counts for claim C5: `badCount = count(bad) + count(very_bad)`. -/
def typedBadCount (xs : List AnalyzedIngredient) : Nat :=
  (xs.map AnalyzedIngredient.classification).count .bad
    + (xs.map AnalyzedIngredient.classification).count .very_bad

/-- Spec-side counts for claim C5: `goodCount = count(good) + count(very_good)`. -/
def typedGoodCount (xs : List AnalyzedIngredient) : Nat :=
  (xs.map AnalyzedIngredient.classification).count .good
    + (xs.map AnalyzedIngredient.classification).count .very_good

/-- Claim C5 (confirmed): on every non-empty well-typed ingredient list the
overall impact is chosen by the first matching rule over
`badCount = count(bad) + count(very_bad)`,
`goodCount = count(good) + count(very_good)` and `total`, with STRICT
inequalities `badCount > 0.3 * total` and `goodCount > 0.5 * total` (stated
as the equivalent exact integer comparisons `10 * badCount > 3 * total` and
`2 * goodCount > total`); ties fall through, so with 10 ingredients and
exactly 3 `bad` the "High number" branch does not trigger (see the witness). -/
theorem overall_impact_threshold_rules (xs : List AnalyzedIngredient) (_hne : xs ≠ []) :
    determineOverallImpact (xs.map AnalyzedIngredient.toJson)
      = .ok (if 3 * xs.length < 10 * typedBadCount xs then
               "High number of potentially harmful ingredients detected. Consider alternatives."
             else if xs.length < 2 * typedGoodCount xs then
               "Generally healthy composition with beneficial ingredients."
             else
               "Moderate nutritional value. Contains a mix of beneficial and less desirable ingredients.") := by
  simp only [determineOverallImpact, classKeys_toJson, Except.map, impactMessage,
    statsGet_tally, List.length_map]
  rw [if_congr (gt_three_tenths_iff _ _) rfl rfl, if_congr (gt_half_iff _ _) rfl rfl]
  simp only [typedBadCount, typedGoodCount, ← count_toStr, Classification.toStr]

/-- Witness for C5 at the claim's stated tie case: 10 ingredients, exactly 3
of them `bad` — `badCount = 3` is not `> 3`, so the "High number" branch is
skipped (and with `goodCount = 0` the result is the "Moderate" message). -/
def tenIngs : List AnalyzedIngredient :=
  List.replicate 3 ⟨"b", .bad, [], [], []⟩ ++ List.replicate 7 ⟨"n", .neutral, [], [], []⟩

theorem overall_impact_threshold_rules_case :
    tenIngs ≠ [] ∧
      determineOverallImpact (tenIngs.map AnalyzedIngredient.toJson)
        = .ok (if 3 * tenIngs.length < 10 * typedBadCount tenIngs then
                 "High number of potentially harmful ingredients detected. Consider alternatives."
               else if tenIngs.length < 2 * typedGoodCount tenIngs then
                 "Generally healthy composition with beneficial ingredients."
               else
                 "Moderate nutritional value. Contains a mix of beneficial and less desirable ingredients.") :=
  ⟨by decide, overall_impact_threshold_rules tenIngs (by decide)⟩

/-- Claim C7 (confirmed): on the empty ingredient list the aggregator is a
total function (no exception is possible: the result is an `.ok`) returning
its defined default — both threshold comparisons are `0 > 0`, hence false,
so the fixed fall-through "Moderate" message is produced.  There is no
dedicated "no data" wording; the defined default IS this message. -/
theorem empty_list_default_message :
    determineOverallImpact ([] : List Json)
      = .ok "Moderate nutritional value. Contains a mix of beneficial and less desirable ingredients." := by
  have h1 : determineOverallImpact ([] : List Json) = .ok (impactMessage [] 0) := rfl
  rw [h1, impactMessage_eq_int]
  rfl

/-- The characters the normalizer removes: `\n` and `\r` are themselves in
U+0000–U+001F, so the three passes jointly remove exactly `ctlChar`. -/
theorem cleanJson_data (s : String) :
    (cleanJson s).data = s.data.filter (fun c => ¬ ctlChar c) := by
  show (s.data.filter (fun c => c ≠ '\n')
          |>.filter (fun c => c ≠ '\r')
          |>.filter (fun c => ¬ ctlChar c))
       = s.data.filter (fun c => ¬ ctlChar c)
  rw [List.filter_filter, List.filter_filter]
  apply List.filter_congr
  intro c _
  by_cases h : ctlChar c = true
  · simp [h]
  · have hn : c ≠ '\n' := by
      intro hc; subst hc; exact h rfl
    have hr : c ≠ '\r' := by
      intro hc; subst hc; exact h rfl
    simp [h, hn, hr]

/-- Claim C8 (confirmed): for every input string the normalizer's output is
the input with exactly the newline, carriage-return and
U+0000–U+001F / U+007F–U+009F control characters removed, all other
characters preserved in their original order (the output character sequence
is literally the `filter` of the input); consequently the output contains
none of those characters, and normalization is idempotent.  (`cleanJson` is
a total function: normalization never fails.) -/
theorem cleanJson_removes_ctl_and_is_idempotent (s : String) :
    (cleanJson s).data = s.data.filter (fun c => ¬ ctlChar c)
    ∧ (∀ c ∈ (cleanJson s).data, ¬ (c = '\n' ∨ c = '\r' ∨ ctlChar c = true))
    ∧ cleanJson (cleanJson s) = cleanJson s := by
  refine ⟨cleanJson_data s, ?_, ?_⟩
  · intro c hc
    rw [cleanJson_data s, List.mem_filter] at hc
    have hctl : ctlChar c = false := by
      rcases hc with ⟨-, h⟩
      simpa using h
    rintro (hc' | hc' | hc') <;> first
      | (subst hc'; exact absurd hctl (by decide))
      | exact absurd hc' (by simp [hctl])
  · show String.mk (cleanJson (cleanJson s)).data = String.mk (cleanJson s).data
    rw [cleanJson_data (cleanJson s), cleanJson_data s, List.filter_filter]
    congr 1
    apply List.filter_congr
    intro c _
    by_cases h : ctlChar c = true <;> simp [h]

/-- Claim C6 (confirmed): a payload carrying neither a `raw_analysis` member
nor an `ingredients` member makes the assembler reach the explicit
`throw new Error("Unable to parse ingredients data")`, caught by the outer
handler: no `HealthAnalysis` is produced (`none` — the terminal
"unprocessable response" outcome; an empty analysis is never substituted). -/
theorem no_fields_signals_unprocessable (data : Json)
    (h1 : getField data "raw_analysis" = none)
    (h2 : getField data "ingredients" = none) :
    handleAnalysisResponse data = none := by
  cases data <;>
    simp_all [handleAnalysisResponse, directPath, truthy]

/-- Witness for C6 at a concrete payload with neither member. -/
theorem no_fields_signals_unprocessable_case :
    handleAnalysisResponse (Json.obj [("status", Json.str "ok")]) = none :=
  no_fields_signals_unprocessable (Json.obj [("status", Json.str "ok")]) rfl rfl

theorem mkAnalysis_ok_ingredients (ing : List Json) (ha : HAResult)
    (h : mkAnalysis ing = .ok ha) : ha.ingredients = ing := by
  unfold mkAnalysis at h
  cases hs : someThrow ingSomeCheck ing <;> rw [hs] at h
  case error e => simp [bind, Except.bind] at h
  case ok b =>
    cases hd : determineOverallImpact ing <;>
      simp only [bind, Except.bind, hd, pure, Except.pure] at h
    case error e => exact Except.noConfusion h
    case ok s =>
      cases h
      rfl

/-- Claim C9 (confirmed): for a structured payload (no `raw_analysis`
member) whose `ingredients` member is an array, any successful assembly
surfaces exactly that array — element for element, hence with every
classification unchanged; only the derived summary fields are added. -/
theorem structured_payload_preserves_ingredients (data : Json) (xs : List Json) (ha : HAResult)
    (_h0 : ∀ j ∈ xs, wfIngredientB j = true)
    (h1 : truthy (getField data "raw_analysis") = false)
    (h2 : getField data "ingredients" = some (Json.arr xs))
    (h3 : handleAnalysisResponse data = some ha) :
    ha.ingredients = xs := by
  cases data with
  | obj fs =>
    simp only [handleAnalysisResponse, h1, Bool.false_eq_true, if_false] at h3
    simp only [directPath, h2, truthy, if_true] at h3
    cases hm : mkAnalysis xs <;> rw [hm] at h3
    case error e => simp [Except.toOption] at h3
    case ok a =>
      simp only [Except.toOption, Option.some.injEq] at h3
      rw [← h3]
      exact mkAnalysis_ok_ingredients xs a hm
  | null => exact Option.noConfusion h2
  | bool b => exact Option.noConfusion h2
  | num m e => exact Option.noConfusion h2
  | str s => exact Option.noConfusion h2
  | arr l => exact Option.noConfusion h2

/-- A well-typed runtime ingredient value used by concrete witnesses. -/
def wfIng : Json :=
  Json.obj [("name", Json.str "water"), ("classification", Json.str "neutral"),
    ("impacts", Json.arr []), ("warnings", Json.arr []), ("recommendations", Json.arr [])]

/-- Witness for C9: a concrete structured payload with one well-formed
ingredient assembles successfully and surfaces exactly that ingredient. -/
theorem structured_payload_preserves_ingredients_case :
    (⟨[wfIng], true,
      "Moderate nutritional value. Contains a mix of beneficial and less desirable ingredients."⟩
        : HAResult).ingredients = [wfIng] :=
  structured_payload_preserves_ingredients
    (Json.obj [("ingredients", Json.arr [wfIng])]) [wfIng] _
    (by intro j hj; rw [List.mem_singleton] at hj; subst hj; rfl)
    rfl rfl
    (by
      have e1 : handleAnalysisResponse (Json.obj [("ingredients", Json.arr [wfIng])])
          = some ⟨[wfIng], true, impactMessage ["neutral"] 1⟩ := rfl
      have e2 : impactMessage ["neutral"] 1
          = "Moderate nutritional value. Contains a mix of beneficial and less desirable ingredients." := by
        rw [impactMessage_eq_int]; rfl
      rw [e1, e2])

/-- A runtime ingredient with `classification: "very_bad"` and NO `name`,
`impacts`, `warnings` or `recommendations` members — the `.some` veto test
short-circuits on the classification, so the absent `warnings` is never
touched and assembly succeeds. -/
def c2ing1 : Json :=
  Json.obj [("classification", Json.str "very_bad")]

/-- A runtime ingredient whose `classification` is outside the five-value
enumeration but which is otherwise fully populated. -/
def c2ing2 : Json :=
  Json.obj [("name", Json.str "a"), ("classification", Json.str "weird"),
    ("impacts", Json.arr []), ("warnings", Json.arr []), ("recommendations", Json.arr [])]

/-- Counterexample to claim C2: a structured payload on which assembly
SUCCEEDS yet both surfaced ingredients violate the claimed invariant —
`c2ing1` has no `name` and absent (not empty) `impacts`/`warnings`/
`recommendations`, and `c2ing2`'s classification is outside the closed
enumeration.  The assembler performs no validation or defaulting. -/
theorem surfaced_ingredient_invariant_fails :
    handleAnalysisResponse (Json.obj [("ingredients", Json.arr [c2ing1, c2ing2])])
      = some ⟨[c2ing1, c2ing2], false,
          "High number of potentially harmful ingredients detected. Consider alternatives."⟩
    ∧ wfIngredientB c2ing1 = false ∧ wfIngredientB c2ing2 = false := by
  refine ⟨?_, rfl, rfl⟩
  have e1 : handleAnalysisResponse (Json.obj [("ingredients", Json.arr [c2ing1, c2ing2])])
      = some ⟨[c2ing1, c2ing2], false, impactMessage ["very_bad", "weird"] 2⟩ := rfl
  have e2 : impactMessage ["very_bad", "weird"] 2
      = "High number of potentially harmful ingredients detected. Consider alternatives." := by
    rw [impactMessage_eq_int]; rfl
  rw [e1, e2]

theorem exists_str_of_isEnumCls (fs : List (String × Json))
    (h : isEnumCls fs = true) :
    ∃ s, lookupLast fs "classification" = some (.str s) := by
  unfold isEnumCls at h
  cases hc : lookupLast fs "classification" with
  | none => rw [hc] at h; exact Bool.noConfusion h
  | some v =>
    cases v <;> rw [hc] at h <;> first
      | exact Bool.noConfusion h
      | exact ⟨_, rfl⟩

theorem exists_arr_of_isArrField (fs : List (String × Json)) (k : String)
    (h : isArrField fs k = true) :
    ∃ ws, lookupLast fs k = some (.arr ws) := by
  unfold isArrField at h
  cases hc : lookupLast fs k with
  | none => rw [hc] at h; exact Bool.noConfusion h
  | some v =>
    cases v <;> rw [hc] at h <;> first
      | exact Bool.noConfusion h
      | exact ⟨_, rfl⟩

theorem wf_ingSomeCheck_isOk (j : Json) (h : wfIngredientB j = true) :
    ∃ b, ingSomeCheck j = .ok b := by
  cases j <;> simp only [wfIngredientB, Bool.and_eq_true] at h
  case obj fs =>
    obtain ⟨⟨⟨⟨-, h2⟩, -⟩, h4⟩, -⟩ := h
    obtain ⟨s, hs⟩ := exists_str_of_isEnumCls fs h2
    obtain ⟨ws, hws⟩ := exists_arr_of_isArrField fs "warnings" h4
    by_cases hvb : s = "very_bad"
    · exact ⟨true, by
        simp [ingSomeCheck, clsIsVeryBad, hs, hvb, bind, Except.bind, pure, Except.pure]⟩
    · exact ⟨decide (ws.length > 0), by
        simp [ingSomeCheck, clsIsVeryBad, hs, hvb, warnLenPos, hws, bind, Except.bind]⟩
  all_goals exact Bool.noConfusion h

theorem wf_classKey_isOk (j : Json) (h : wfIngredientB j = true) :
    ∃ k, classKey j = .ok k := by
  cases j
  case obj fs => exact ⟨_, rfl⟩
  all_goals exact Bool.noConfusion h

theorem someThrow_isOk (xs : List Json)
    (h : ∀ x ∈ xs, ∃ b, ingSomeCheck x = .ok b) :
    ∃ b, someThrow ingSomeCheck xs = .ok b := by
  induction xs with
  | nil => exact ⟨false, rfl⟩
  | cons x xs ih =>
    obtain ⟨b, hb⟩ := h x (List.mem_cons_self x xs)
    obtain ⟨b', hb'⟩ := ih fun y hy => h y (List.mem_cons_of_mem x hy)
    cases b
    · exact ⟨b', by simp [someThrow, hb, hb']⟩
    · exact ⟨true, by simp [someThrow, hb]⟩

theorem classKeys_isOk (xs : List Json)
    (h : ∀ x ∈ xs, ∃ k, classKey x = .ok k) :
    ∃ ks, classKeys xs = .ok ks := by
  induction xs with
  | nil => exact ⟨[], rfl⟩
  | cons x xs ih =>
    obtain ⟨k, hk⟩ := h x (List.mem_cons_self x xs)
    obtain ⟨ks, hks⟩ := ih fun y hy => h y (List.mem_cons_of_mem x hy)
    exact ⟨k :: ks, by simp [classKeys, hk, hks, bind, Except.bind, pure, Except.pure]⟩

theorem mkAnalysis_isOk_of_wf (xs : List Json)
    (h : ∀ j ∈ xs, wfIngredientB j = true) :
    ∃ b s, mkAnalysis xs = .ok ⟨xs, b, s⟩ := by
  obtain ⟨b, hb⟩ := someThrow_isOk xs fun x hx => wf_ingSomeCheck_isOk x (h x hx)
  obtain ⟨ks, hks⟩ := classKeys_isOk xs fun x hx => wf_classKey_isOk x (h x hx)
  exact ⟨!b, impactMessage ks xs.length,
    by simp [mkAnalysis, hb, determineOverallImpact, hks, Except.map,
      bind, Except.bind, pure, Except.pure]⟩

/-- Claim C2, amended (the part that holds): assembly neither validates nor
defaults per-ingredient data — it surfaces the parsed entries exactly as
received.  Hence on a structured payload whose entries already satisfy the
invariant, assembly succeeds and every surfaced ingredient satisfies it;
but the invariant is inherited from the input, not established by the
assembler (see the counterexample for ill-formed entries surfaced as-is). -/
theorem wellformed_inputs_surfaced_wellformed (xs : List Json)
    (h : ∀ j ∈ xs, wfIngredientB j = true) :
    ∃ ha, handleAnalysisResponse (Json.obj [("ingredients", Json.arr xs)]) = some ha
      ∧ ha.ingredients = xs ∧ ∀ j ∈ ha.ingredients, wfIngredientB j = true := by
  obtain ⟨b, s, hm⟩ := mkAnalysis_isOk_of_wf xs h
  refine ⟨⟨xs, b, s⟩, ?_, rfl, h⟩
  have e : handleAnalysisResponse (Json.obj [("ingredients", Json.arr xs)])
      = (mkAnalysis xs).toOption := rfl
  rw [e, hm]
  rfl

/-- Witness for the amended C2 at a concrete well-formed payload. -/
theorem wellformed_inputs_surfaced_wellformed_case :
    ∃ ha, handleAnalysisResponse (Json.obj [("ingredients", Json.arr [wfIng])]) = some ha
      ∧ ha.ingredients = [wfIng] ∧ ∀ j ∈ ha.ingredients, wfIngredientB j = true :=
  wellformed_inputs_surfaced_wellformed [wfIng]
    (by intro j hj; rw [List.mem_singleton] at hj; subst hj; rfl)

/-! ## Claims C3, C4, C10 -/

/-- First complete, individually well-formed ingredient entry of the C3
truncation scenario. -/
def c3entry1 : String := "\x7b\"name\":\"sugar\",\"classification\":\"bad\"\x7d"

/-- Second complete, individually well-formed ingredient entry. -/
def c3entry2 : String := "\x7b\"name\":\"salt\",\"classification\":\"neutral\"\x7d"

/-- A raw analysis truncated right after the second entry: the
`"ingredients": [` array is never closed (simulated truncation). -/
def c3raw : String := "\x7b\"ingredients\": [" ++ c3entry1 ++ "," ++ c3entry2

/-- Counterexample to claim C3: this normalized string is exactly of the
claimed form — `"ingredients": [` followed by two complete, individually
well-formed JSON ingredient objects with the closing array bracket missing —
yet tier-2 partial extraction does NOT succeed: the regex
`/"ingredients":\s*\[([\s\S]*?)\]/` needs a literal `]` after the `[`, the
truncated string contains none, so there is no match at all; the whole
handler then fails.  (Entries containing nested arrays fare no better: the
lazy capture would stop at the first nested `]`, producing an unparsable
fragment.) -/
theorem truncated_two_entries_not_recovered :
    (parseJson c3entry1).isSome = true
    ∧ (parseJson c3entry2).isSome = true
    ∧ cleanJson c3raw = c3raw
    ∧ findIngredientsArr (cleanJson c3raw).data = none
    ∧ tier2 (cleanJson c3raw) = .error ()
    ∧ handleAnalysisResponse (Json.obj [("raw_analysis", Json.str c3raw)]) = none :=
  ⟨rfl, rfl, rfl, rfl, rfl, rfl⟩

theorem dropLit_mem (ps : List Char) :
    ∀ (cs rest : List Char), dropLit ps cs = some rest → ∀ c ∈ rest, c ∈ cs := by
  induction ps with
  | nil =>
    intro cs rest h c hc
    cases h
    exact hc
  | cons p ps ih =>
    intro cs rest h c hc
    cases cs with
    | nil => exact Option.noConfusion h
    | cons x cs' =>
      rw [dropLit] at h
      by_cases hx : x = p
      · rw [if_pos hx] at h
        exact List.mem_cons_of_mem x (ih cs' rest h c hc)
      · rw [if_neg hx] at h
        exact Option.noConfusion h

theorem takeUntilRB_eq_none (cs : List Char) (h : ∀ c ∈ cs, c ≠ ']') :
    takeUntilRB cs = none := by
  induction cs with
  | nil => rfl
  | cons c cs ih =>
    rw [takeUntilRB, if_neg (h c (List.mem_cons_self c cs)),
      ih fun d hd => h d (List.mem_cons_of_mem c hd)]
    rfl

theorem matchIngredientsAt_eq_none (cs : List Char) (h : ∀ c ∈ cs, c ≠ ']') :
    matchIngredientsAt cs = none := by
  unfold matchIngredientsAt
  cases hd : dropLit "\"ingredients\":".data cs with
  | none => rfl
  | some rest =>
    have hrest : ∀ c ∈ rest, c ≠ ']' := fun c hc => h c (dropLit_mem _ cs rest hd c hc)
    cases hdw : rest.dropWhile jsWsChar with
    | nil => simp [hdw]
    | cons d rest2 =>
      have hrest2 : ∀ c ∈ rest2, c ≠ ']' := by
        intro c hc
        apply hrest
        have hmem : c ∈ rest.dropWhile jsWsChar := by
          rw [hdw]; exact List.mem_cons_of_mem d hc
        exact (List.dropWhile_sublist _).mem hmem
      by_cases hdc : d = '['
      · simp [hdw, hdc, takeUntilRB_eq_none rest2 hrest2]
      · simp [hdw, hdc]

theorem findIngredientsArr_eq_none (cs : List Char) (h : ∀ c ∈ cs, c ≠ ']') :
    findIngredientsArr cs = none := by
  induction cs with
  | nil => rfl
  | cons c cs ih =>
    rw [findIngredientsArr, matchIngredientsAt_eq_none (c :: cs) h]
    exact ih fun d hd => h d (List.mem_cons_of_mem c hd)

/-- Claim C3, amended (the part that holds): tier-2 extraction requires a
literal `]` somewhere after the matched `[` — on any normalized string with
no `]` at all (as in the simulated-truncation scenario, whose array is never
closed and whose entries contain no nested arrays) the regex cannot match
and tier 2 signals failure instead of yielding the leading entries.  Leading
entries are recovered only when a `]` actually terminates them in the
stream. -/
theorem tier2_fails_without_closing_bracket (s : String)
    (h : ∀ c ∈ s.data, c ≠ ']') : tier2 s = .error () := by
  unfold tier2
  rw [findIngredientsArr_eq_none s.data h]

/-- Witness for the amended C3 at the concrete truncated string. -/
theorem tier2_fails_without_closing_bracket_case : tier2 c3raw = .error () :=
  tier2_fails_without_closing_bracket c3raw (by decide)

/-- The C4 scenario: a raw analysis that is fully valid JSON but has no
`ingredients` member. -/
def c4raw : String := "\x7b\"status\":\"complete\"\x7d"

/-- Claim C4 (code bug): the normalized string parses fully as JSON and the
document lacks an `ingredients` member — per the claim (and the intent
visible in the code's own `parsedAnalysis.ingredients || []` default on
line 248), tier 1 should succeed with an empty ingredient sequence.
Instead line 250 reads `parsedAnalysis.ingredients.some(...)` WITHOUT the
guard: `undefined.some` throws a TypeError, tier 1 fails, tier 2 IS invoked
(its regex finds nothing), and with no direct `ingredients` member the
handler signals failure instead of producing the empty-analysis success. -/
theorem missing_ingredients_field_signals_failure :
    parseJson (cleanJson c4raw) = some (Json.obj [("status", Json.str "complete")])
    ∧ getField (Json.obj [("status", Json.str "complete")]) "ingredients" = none
    ∧ tier1 (cleanJson c4raw) = .error ()
    ∧ handleAnalysisResponse (Json.obj [("raw_analysis", Json.str c4raw)]) = none :=
  ⟨rfl, rfl, rfl, rfl⟩

/-- Claim C10 (confirmed): assembling from an empty ingredient list — via
the direct structured path (an empty array is truthy) or via tier-1 parse of
`{"ingredients":[]}` — yields `safe_to_consume = true`: `[].some(...)` is
`false`, so the absence of any ingredient produces the favorable verdict. -/
theorem empty_ingredients_safe_true :
    handleAnalysisResponse (Json.obj [("ingredients", Json.arr [])])
      = some ⟨[], true,
          "Moderate nutritional value. Contains a mix of beneficial and less desirable ingredients."⟩
    ∧ handleAnalysisResponse (Json.obj [("raw_analysis", Json.str "\x7b\"ingredients\":[]\x7d")])
      = some ⟨[], true,
          "Moderate nutritional value. Contains a mix of beneficial and less desirable ingredients."⟩ := by
  have e2 : impactMessage [] 0
      = "Moderate nutritional value. Contains a mix of beneficial and less desirable ingredients." := by
    rw [impactMessage_eq_int]; rfl
  constructor
  · have e1 : handleAnalysisResponse (Json.obj [("ingredients", Json.arr [])])
        = some ⟨[], true, impactMessage [] 0⟩ := rfl
    rw [e1, e2]
  · have e1 : handleAnalysisResponse
          (Json.obj [("raw_analysis", Json.str "\x7b\"ingredients\":[]\x7d")])
        = some ⟨[], true, impactMessage [] 0⟩ := rfl
    rw [e1, e2]
